import Mathlib

set_option autoImplicit false

/-!
Shallow embedding of the CWCki-timeline pipeline (analyzer.py, scraper.py,
extract_media.py) and proofs about its checkpointed batch loop, finalize
safety checks, retry classification, content truncation, discovery crawl,
media dedup, checkpoint loading and timeline sorting.

Conventions: page/url identities and opaque payloads are modelled as `Nat`;
character strings that the code slices or parses are modelled as `List Char`;
the external collaborators (HTTP fetch, AI invocation) are modelled as
function parameters giving the outcome of each call.
-/

/-! ## Batch processor of `CWCkiAnalyzer.generate_timeline` (analyzer.py 178-342) -/

/-- Events extracted by the AI for one batch; payloads are opaque naturals. -/
abbrev BatchEvent := Nat

/-- Outcome of `analyze_page_batch` plus JSON parsing for one batch,
analyzer.py 237-287: the call returns text that parses and has an
`events` key, parses without that key, fails to parse
(`json.JSONDecodeError`), or the call itself raises after retries. -/
inductive BatchOutcome where
  | success (events : List BatchEvent)
  | noEventsKey
  | parseFailure
  | callFailure
deriving DecidableEq

/-- Timeline checkpoint document, analyzer.py 257-263 and 279-285. -/
structure Checkpoint where
  events : List BatchEvent
  last_batch : Nat
  failed_batches : List Nat
deriving DecidableEq

/-- In-memory state of the timeline batch loop plus the trace of persisted
checkpoints (oldest first; the on-disk file is the last entry). -/
structure LoopState where
  events : List BatchEvent
  failed_batches : List Nat
  saves : List Checkpoint
deriving DecidableEq

/-- Checkpoint cadence of the analyzer loop: save every 5 batches (analyzer.py 256). -/
def checkpointInterval : Nat := 5

/-- One iteration of the batch loop for 0-indexed batch `b`, analyzer.py 230-289.
On success the events are appended, `b+1` is removed from the failed list if
present, and a checkpoint with `last_batch = b+1` is persisted every 5th batch.
A parsed response without an `events` key changes nothing.  A JSON parse error
appends `b+1` to the failed list (if absent) without persisting.  A raised
exception appends `b+1` to the failed list (if absent) and immediately persists
a checkpoint whose `last_batch` stays at `b`. -/
def processBatch (b : Nat) (o : BatchOutcome) (st : LoopState) : LoopState :=
  match o with
  | .success evs =>
      let events := st.events ++ evs
      let failed := if (b + 1) ∈ st.failed_batches then
          st.failed_batches.erase (b + 1) else st.failed_batches
      if (b + 1) % checkpointInterval = 0 then
        { events := events, failed_batches := failed,
          saves := st.saves ++ [⟨events, b + 1, failed⟩] }
      else
        { events := events, failed_batches := failed, saves := st.saves }
  | .noEventsKey => st
  | .parseFailure =>
      { st with failed_batches := if (b + 1) ∈ st.failed_batches then
          st.failed_batches else st.failed_batches ++ [b + 1] }
  | .callFailure =>
      let failed := if (b + 1) ∈ st.failed_batches then
          st.failed_batches else st.failed_batches ++ [b + 1]
      { events := st.events, failed_batches := failed,
        saves := st.saves ++ [⟨st.events, b, failed⟩] }

/-- Run the loop over the given batch numbers in order; `behavior b` is the
outcome the external AI call produces for batch `b` on this run. -/
def runBatches (behavior : Nat → BatchOutcome) : List Nat → LoopState → LoopState
  | [], st => st
  | b :: bs, st => runBatches behavior bs (processBatch b (behavior b) st)

/-- Batch numbers processed by `for i in range(start_batch * batch_size, len(pages),
batch_size)` with `batch_num = i // batch_size`: the numbers `start, ..., total-1`. -/
def batchRange (start total : Nat) : List Nat := List.range' start (total - start)

/-- Fresh-run initial state: no events, no failed batches, nothing persisted. -/
def initialLoopState : LoopState := ⟨[], [], []⟩

/-- A complete run of the loop starting from scratch over `total` batches. -/
def runFresh (behavior : Nat → BatchOutcome) (total : Nat) : LoopState :=
  runBatches behavior (batchRange 0 total) initialLoopState

/-- Result of reading a checkpoint file: absent, unparseable, or parsed data. -/
inductive CheckpointRead (α : Type) where
  | noFile
  | parseFailure
  | ok (data : α)
deriving DecidableEq

/-- The on-disk checkpoint left behind by a run: the last persisted save. -/
def finalCheckpointRead (st : LoopState) : CheckpointRead Checkpoint :=
  match st.saves.getLast? with
  | some c => .ok c
  | none => .noFile

/-- Minimum of a list of naturals, Python `min` for nonempty lists. -/
def minList : List Nat → Nat
  | [] => 0
  | x :: xs => xs.foldl Nat.min x

/-- Checkpoint loading of analyzer.py 187-215: a missing or unparseable file
yields empty events, empty failed list and start batch 0; otherwise resume
from `min(failed_batches) - 1` when there are failed batches, else from
`last_batch`. -/
def analyzerResume (r : CheckpointRead Checkpoint) : List BatchEvent × List Nat × Nat :=
  match r with
  | .noFile => ([], [], 0)
  | .parseFailure => ([], [], 0)
  | .ok c =>
      if c.failed_batches ≠ [] then
        (c.events, c.failed_batches, minList c.failed_batches - 1)
      else
        (c.events, c.failed_batches, c.last_batch)

/-- A run of the loop that starts from a previously read checkpoint. -/
def rerun (behavior : Nat → BatchOutcome) (total : Nat) (r : CheckpointRead Checkpoint) :
    LoopState :=
  let res := analyzerResume r
  runBatches behavior (batchRange res.2.2 total) ⟨res.1, res.2.1, []⟩

/-- Events contributed by one batch outcome: what `all_events.extend` appends. -/
def successEvents (o : BatchOutcome) : List BatchEvent :=
  match o with
  | .success evs => evs
  | _ => []

/-- Concatenation of the events appended while processing the given batches. -/
def contributions (behavior : Nat → BatchOutcome) : List Nat → List BatchEvent
  | [] => []
  | b :: bs => successEvents (behavior b) ++ contributions behavior bs

/-! ## Log levels of the checkpoint loaders (analyzer.py 209-210, scraper.py 129-136) -/

/-- Log level of the message emitted while loading a checkpoint. -/
inductive LogLevel where
  | info
  | warning
  | error
deriving DecidableEq

/-- Log emitted by the analyzer checkpoint load: nothing when the file is
absent, a warning on parse failure (analyzer.py 210), info on success. -/
def analyzerLoadLog (r : CheckpointRead Checkpoint) : Option LogLevel :=
  match r with
  | .noFile => none
  | .parseFailure => some .warning
  | .ok _ => some .info

/-! ## Never-regress finalize checks (extract_media.py 322-387, scraper.py 477-520) -/

/-- Canonical media index artifact summarised by its page count and its count
of non-empty payloads (downloaded images). -/
structure MediaArtifact where
  pages : Nat
  images : Nat
deriving DecidableEq

/-- Write decision of `MediaExtractor.extract_all_media` (extract_media.py
322-387): nothing is written when no pages were processed; with an existing
readable index, the candidate is rejected when the existing index has at least
as many pages and a positive image count, and also when it has strictly more
pages; the candidate's own image count is never consulted. -/
def extractMediaShouldWrite (existing : Option MediaArtifact) (c : MediaArtifact) : Bool :=
  if c.pages = 0 then false
  else
    match existing with
    | none => true
    | some e =>
        if e.pages ≥ c.pages ∧ 0 < e.images then false
        else if e.pages > c.pages then false
        else true

/-- Write decision of `CWCkiScraper.scrape_all_pages` for media_index.json
(scraper.py 477-520): with newly scraped pages, rejected when the existing
index has at least as many pages and a positive image count; with no newly
scraped pages, write only when no file exists (an empty one). -/
def scraperShouldWrite (existing : Option MediaArtifact) (c : MediaArtifact) : Bool :=
  if 0 < c.pages then
    match existing with
    | none => true
    | some e => if e.pages ≥ c.pages ∧ 0 < e.images then false else true
  else
    match existing with
    | none => true
    | some _ => false

/-- Finalize step of the media extractor: the resulting on-disk artifact and
the accepted flag. -/
def finalizeExtractMedia (existing : Option MediaArtifact) (c : MediaArtifact) :
    Option MediaArtifact × Bool :=
  if extractMediaShouldWrite existing c then (some c, true) else (existing, false)

/-! ## Retry classification and retry loops (scraper.py 46-85, analyzer.py 150-176) -/

/-- Failure of one HTTP request attempt in `CWCkiScraper._make_request`:
timeout, connection error, HTTP status error, or any unexpected exception. -/
inductive FetchFailure where
  | timeout
  | connectionError
  | httpError (status : Nat)
  | unexpected
deriving DecidableEq

/-- HTTP statuses the scraper retries (scraper.py 64). -/
def retryableHttpStatuses : List Nat := [429, 500, 502, 503, 504]

/-- Whether `_make_request` routes the failure into `_retry_request`
(scraper.py 55-73): timeouts, connection errors, the listed HTTP statuses,
and any unexpected exception are retried; other HTTP statuses are not. -/
def scraperErrorRetried (e : FetchFailure) : Bool :=
  match e with
  | .timeout => true
  | .connectionError => true
  | .httpError s => decide (s ∈ retryableHttpStatuses)
  | .unexpected => true

/-- Retry budget of the scraper (scraper.py 40). -/
def scraperMaxRetries : Nat := 3

/-- Retry budget of the analyzer (analyzer.py 45). -/
def analyzerMaxRetries : Nat := 5

/-- The recursive retry loop of `_make_request` and `_retry_request`
(scraper.py 46-85).  `responses n` is the outcome of the attempt with
`retry_count = n`.  Returns the final result together with the number of
attempts actually made. -/
def makeRequest (responses : Nat → Except FetchFailure Nat) (retryCount : Nat) :
    Option Nat × Nat :=
  match responses retryCount with
  | .ok v => (some v, 1)
  | .error e =>
      if scraperErrorRetried e then
        if h : retryCount < scraperMaxRetries then
          let p := makeRequest responses (retryCount + 1)
          (p.1, p.2 + 1)
        else (none, 1)
      else (none, 1)
termination_by scraperMaxRetries - retryCount
decreasing_by simp_wf; omega

/-- Checks whether the first list is an initial segment of the second. -/
def leadsChars : List Char → List Char → Bool
  | [], _ => true
  | _ :: _, [] => false
  | a :: as, b :: bs => a == b && leadsChars as bs

/-- Checks whether the first list occurs contiguously inside the second,
Python's `needle in haystack` on strings. -/
def occursInChars (needle : List Char) : List Char → Bool
  | [] => needle.isEmpty
  | b :: rest => leadsChars needle (b :: rest) || occursInChars needle rest

/-- Error-name allow-list of `analyze_page_batch` (analyzer.py 155-163). -/
def retryableErrorNames : List String :=
  ["UnrecognizedClientException", "ExpiredTokenException", "ThrottlingException",
   "ServiceUnavailableException", "InternalServerError", "TimeoutError",
   "ConnectionError"]

/-- Retry classification of the analyzer (analyzer.py 165): an error is
retryable when one of the listed names occurs as a substring of the error's
type name or of its message. -/
def analyzerIsRetryable (errorType errorMsg : String) : Bool :=
  retryableErrorNames.any fun err =>
    occursInChars err.toList errorType.toList || occursInChars err.toList errorMsg.toList

/-- The recursive retry loop of `analyze_page_batch` (analyzer.py 131-176).
`attempts n` is the outcome of the call with `retry_count = n`; an error
carries the pair (type name, message).  A non-retryable error, or retry-budget
exhaustion, re-raises the error. -/
def analyzeBatch (attempts : Nat → Except (String × String) String) (retryCount : Nat) :
    Except (String × String) String :=
  match attempts retryCount with
  | .ok r => .ok r
  | .error tm =>
      if analyzerIsRetryable tm.1 tm.2 then
        if h : retryCount < analyzerMaxRetries then
          analyzeBatch attempts (retryCount + 1)
        else .error tm
      else .error tm
termination_by analyzerMaxRetries - retryCount
decreasing_by simp_wf; omega

/-! ## Content batch assembler truncation (analyzer.py 71-87) -/

/-- Marker inserted between the head and tail slices (analyzer.py 85). -/
def truncationMarker : List Char := "\n\n[...middle section truncated...]\n\n".toList

/-- Python `content[-k:]`: the last `k` characters, except that `k = 0`
yields the whole string. -/
def pyTailSlice (l : List Char) (k : Nat) : List Char :=
  if k = 0 then l else l.drop (l.length - k)

/-- Context budget of the assembler (analyzer.py 72). -/
def maxTotalChars : Nat := 700000

/-- Per-item share: `max_total_chars // len(pages)` (analyzer.py 73). -/
def charsPerPage (numPages : Nat) : Nat := maxTotalChars / numPages

/-- Head/tail truncation of one page's content (analyzer.py 79-85): when the
content exceeds its share `S`, keep the first `int(S * 0.6)` characters and
the last `int(S * 0.4)` characters around the marker.  For every share
reachable from the 700000-character budget the float products are exact, so
the cutoffs are `6*S/10` and `4*S/10` in natural division. -/
def truncatePage (content : List Char) (S : Nat) : List Char :=
  if S < content.length then
    content.take (6 * S / 10) ++ truncationMarker ++ pyTailSlice content (4 * S / 10)
  else content

/-! ## Discovery crawl loop (scraper.py 140-205) -/

/-- Result of fetching and parsing one page: the request failed after
retries, or it yielded an optional page title and the list of candidate
link targets found in the content div. -/
inductive FetchResult where
  | failed
  | page (title : Option Nat) (links : List Nat)
deriving DecidableEq

/-- State of `discover_all_pages`: the visited set, the discovered
url-to-title map, the pending queue, plus an instrumentation log of the urls
actually fetched (those that passed the visited guard). -/
structure CrawlState where
  visited : List Nat
  discovered : List (Nat × Nat)
  toVisit : List Nat
  processedLog : List Nat
deriving DecidableEq

/-- One iteration of the while loop of `discover_all_pages` (scraper.py
161-199): stop when the queue is empty or the page cap is reached; pop the
head; discard it if already visited; otherwise mark it visited, fetch it,
record its title if one is found and not already recorded, and append the
valid unvisited links to the queue. -/
def crawlStep (web : Nat → FetchResult) (valid : Nat → Bool) (maxPages : Nat)
    (st : CrawlState) : CrawlState :=
  match st.toVisit with
  | [] => st
  | url :: rest =>
      if st.discovered.length < maxPages then
        if url ∈ st.visited then { st with toVisit := rest }
        else
          let st1 : CrawlState :=
            { visited := st.visited ++ [url], discovered := st.discovered,
              toVisit := rest, processedLog := st.processedLog ++ [url] }
          match web url with
          | .failed => st1
          | .page title links =>
              let st2 : CrawlState :=
                match title with
                | some t =>
                    if url ∈ st1.discovered.map Prod.fst then st1
                    else { st1 with discovered := st1.discovered ++ [(url, t)] }
                | none => st1
              { st2 with toVisit := st2.toVisit ++
                  links.filter (fun u => valid u && !(st2.visited.contains u)) }
      else st

/-- Iterate the crawl loop `n` times. -/
def crawlIter (web : Nat → FetchResult) (valid : Nat → Bool) (maxPages : Nat) :
    Nat → CrawlState → CrawlState
  | 0, st => st
  | n + 1, st => crawlIter web valid maxPages n (crawlStep web valid maxPages st)

/-- Fresh crawl state seeded with the start url (scraper.py 150-151). -/
def initialCrawlState (startUrl : Nat) : CrawlState := ⟨[], [], [startUrl], []⟩

/-! ## Discovery checkpoint loading (scraper.py 103-157) -/

/-- Discovery checkpoint document (scraper.py 105-111). -/
structure DiscoveryCheckpoint where
  discovered : List (Nat × Nat)
  visited : List Nat
  queue : List Nat
deriving DecidableEq

/-- The data `_load_discovery_checkpoint` (scraper.py 116-137) hands back:
none when the file is missing or unreadable, otherwise the discovered map,
visited list and pending queue. -/
def scraperLoadResult (r : CheckpointRead DiscoveryCheckpoint) :
    Option (List (Nat × Nat) × List Nat × List Nat) :=
  match r with
  | .noFile => none
  | .parseFailure => none
  | .ok c => some (c.discovered, c.visited, c.queue)

/-- Log emitted by `_load_discovery_checkpoint`: nothing when the file is
absent, an error-level message on load failure (scraper.py 136), info on
success. -/
def scraperLoadLog (r : CheckpointRead DiscoveryCheckpoint) : Option LogLevel :=
  match r with
  | .noFile => none
  | .parseFailure => some .error
  | .ok _ => some .info

/-- Initial crawl state built by `discover_all_pages` (scraper.py 145-157)
from the loaded checkpoint: a missing or unreadable checkpoint starts fresh
from the start url; an empty loaded queue with a nonempty discovered map is
reseeded with the first discovered url. -/
def discoverInit (startUrl : Nat)
    (loaded : Option (List (Nat × Nat) × List Nat × List Nat)) : CrawlState :=
  match loaded with
  | none => initialCrawlState startUrl
  | some (d, v, q) =>
      let q2 := match q, d with
        | [], (u, _) :: _ => [u]
        | _, _ => q
      ⟨v, d, q2, []⟩

/-! ## Media dedup of `link_media_to_events` (analyzer.py 676-697) -/

/-- Media record: its url identity plus an opaque payload standing for all
other fields (alt text, title, caption, ...). -/
structure MediaRecord where
  url : String
  payload : Nat
deriving DecidableEq

/-- The dedup loop of analyzer.py 677-696: walk the records in order keeping
a seen-url set; a record is kept only when its url is non-empty and unseen. -/
def dedupGo (seen : List String) : List MediaRecord → List MediaRecord
  | [] => []
  | r :: rs =>
      if r.url ≠ "" ∧ r.url ∉ seen then r :: dedupGo (r.url :: seen) rs
      else dedupGo seen rs

/-- Url-keyed dedup as applied to the image and video lists of a page. -/
def dedupByUrl (records : List MediaRecord) : List MediaRecord :=
  dedupGo [] records

/-! ## Timeline sorting (analyzer.py 291-305) -/

/-- Timeline event: its optional date string and an opaque payload. -/
structure TimelineEvent where
  date : Option (List Char)
  payload : Nat
deriving DecidableEq

/-- Python `int(s)` restricted to unsigned digit strings. -/
def parseNatChars (s : List Char) : Option Nat :=
  if s ≠ [] ∧ s.all Char.isDigit then
    some (s.foldl (fun a c => a * 10 + (c.toNat - 48)) 0)
  else none

/-- Python `s.split('-')`. -/
def splitDash : List Char → List (List Char)
  | [] => [[]]
  | c :: rest =>
      let r := splitDash rest
      if c = '-' then [] :: r
      else
        match r with
        | h :: t => (c :: h) :: t
        | [] => [[c]]

/-- The try-block of `parse_date_for_sort` (analyzer.py 292-301): none means
the Python code raises and falls into the except branch. -/
def parseDateForSortE (dateStr : List Char) : Option (Nat × Nat × Nat) :=
  if dateStr.length = 4 then
    match parseNatChars dateStr with
    | some y => some (y, 1, 1)
    | none => none
  else if dateStr.length = 7 then
    match splitDash dateStr with
    | p0 :: p1 :: _ =>
        match parseNatChars p0, parseNatChars p1 with
        | some y, some m => some (y, m, 1)
        | _, _ => none
    | _ => none
  else
    match splitDash dateStr with
    | p0 :: p1 :: p2 :: _ =>
        match parseNatChars p0, parseNatChars p1, parseNatChars p2 with
        | some y, some m, some d => some (y, m, d)
        | _, _, _ => none
    | _ => none

/-- `parse_date_for_sort` (analyzer.py 292-303): unparseable dates get the
sentinel key (9999, 1, 1). -/
def parseDateForSort (dateStr : List Char) : Nat × Nat × Nat :=
  (parseDateForSortE dateStr).getD (9999, 1, 1)

/-- Sort key of an event: `parse_date_for_sort(x.get('date', '9999'))`
(analyzer.py 305). -/
def eventSortKey (e : TimelineEvent) : Nat × Nat × Nat :=
  parseDateForSort (e.date.getD "9999".toList)

/-- Lexicographic order on date triples, Python tuple comparison. -/
def dateKeyLeB (x y : Nat × Nat × Nat) : Bool :=
  decide (x.1 < y.1) ||
    (decide (x.1 = y.1) &&
      (decide (x.2.1 < y.2.1) ||
        (decide (x.2.1 = y.2.1) && decide (x.2.2 ≤ y.2.2))))

/-- Strict lexicographic order on date triples. -/
def dateKeyLt (x y : Nat × Nat × Nat) : Prop :=
  x.1 < y.1 ∨ (x.1 = y.1 ∧ (x.2.1 < y.2.1 ∨ (x.2.1 = y.2.1 ∧ x.2.2 < y.2.2)))

/-- Event comparison used by the sort. -/
def eventLe (a b : TimelineEvent) : Prop :=
  dateKeyLeB (eventSortKey a) (eventSortKey b) = true

instance : DecidableRel eventLe :=
  fun a b => Bool.decEq (dateKeyLeB (eventSortKey a) (eventSortKey b)) true

instance : IsTotal TimelineEvent eventLe :=
  ⟨by intro a b; unfold eventLe dateKeyLeB; simp only [Bool.or_eq_true, Bool.and_eq_true,
      decide_eq_true_eq]; omega⟩

instance : IsTrans TimelineEvent eventLe :=
  ⟨by intro a b c; unfold eventLe dateKeyLeB; simp only [Bool.or_eq_true, Bool.and_eq_true,
      decide_eq_true_eq]; omega⟩

/-- The stable ascending sort `all_events.sort(key=...)` (analyzer.py 305),
modelled by insertion sort, which is stable and sorts by `eventLe`. -/
def sortTimeline (events : List TimelineEvent) : List TimelineEvent :=
  List.insertionSort eventLe events

/-! ## Generic lemmas about the batch loop -/

theorem runBatches_append (behavior : Nat → BatchOutcome) (bs1 bs2 : List Nat)
    (st : LoopState) :
    runBatches behavior (bs1 ++ bs2) st =
      runBatches behavior bs2 (runBatches behavior bs1 st) := by
  induction bs1 generalizing st with
  | nil => rfl
  | cons b bs ih => simp [runBatches, ih]

theorem processBatch_events (b : Nat) (o : BatchOutcome) (st : LoopState) :
    (processBatch b o st).events = st.events ++ successEvents o := by
  cases o <;> simp only [processBatch, successEvents] <;> (try split_ifs) <;> simp

theorem runBatches_events (behavior : Nat → BatchOutcome) (bs : List Nat)
    (st : LoopState) :
    (runBatches behavior bs st).events = st.events ++ contributions behavior bs := by
  induction bs generalizing st with
  | nil => simp [runBatches, contributions]
  | cons b bs ih =>
      simp [runBatches, contributions, ih, processBatch_events, List.append_assoc]

theorem processBatch_failed_mem (b : Nat) (o : BatchOutcome) (st : LoopState)
    (x : Nat) (hx : x ∈ st.failed_batches) (hne : x ≠ b + 1) :
    x ∈ (processBatch b o st).failed_batches := by
  cases o <;> simp only [processBatch] <;> (try split_ifs) <;>
    simp [List.mem_erase_of_ne hne, hx]

theorem processBatch_failed_not_mem (b : Nat) (o : BatchOutcome) (st : LoopState)
    (x : Nat) (hx : x ∉ st.failed_batches) (hne : x ≠ b + 1) :
    x ∉ (processBatch b o st).failed_batches := by
  cases o <;> simp only [processBatch] <;> (try split_ifs) <;> simp [hx, hne]

theorem processBatch_failed_nodup (b : Nat) (o : BatchOutcome) (st : LoopState)
    (h : st.failed_batches.Nodup) : (processBatch b o st).failed_batches.Nodup := by
  cases o <;> simp only [processBatch] <;> (try split_ifs) <;>
    first
    | exact h
    | exact h.erase _
    | simp_all [List.nodup_append]

theorem runBatches_failed_mem (behavior : Nat → BatchOutcome) (bs : List Nat)
    (st : LoopState) (x : Nat) (hx : x ∈ st.failed_batches)
    (hbs : ∀ b ∈ bs, b + 1 ≠ x) : x ∈ (runBatches behavior bs st).failed_batches := by
  induction bs generalizing st with
  | nil => exact hx
  | cons b bs ih =>
      simp only [runBatches]
      exact ih _ (processBatch_failed_mem _ _ _ _ hx (fun h => (hbs b (by simp)) h.symm))
        (fun b hb => hbs b (by simp [hb]))

theorem runBatches_failed_not_mem (behavior : Nat → BatchOutcome) (bs : List Nat)
    (st : LoopState) (x : Nat) (hx : x ∉ st.failed_batches)
    (hbs : ∀ b ∈ bs, b + 1 ≠ x) : x ∉ (runBatches behavior bs st).failed_batches := by
  induction bs generalizing st with
  | nil => exact hx
  | cons b bs ih =>
      simp only [runBatches]
      exact ih _ (processBatch_failed_not_mem _ _ _ _ hx (fun h => (hbs b (by simp)) h.symm))
        (fun b hb => hbs b (by simp [hb]))

theorem runBatches_failed_nodup (behavior : Nat → BatchOutcome) (bs : List Nat)
    (st : LoopState) (h : st.failed_batches.Nodup) :
    (runBatches behavior bs st).failed_batches.Nodup := by
  induction bs generalizing st with
  | nil => exact h
  | cons b bs ih => exact ih _ (processBatch_failed_nodup _ _ _ h)

theorem processBatch_saves (b : Nat) (o : BatchOutcome) (st : LoopState) :
    ∃ ds, (processBatch b o st).saves = st.saves ++ ds ∧
      ∀ cp ∈ ds, cp.events = (processBatch b o st).events ∧
        cp.failed_batches = (processBatch b o st).failed_batches ∧
        cp.last_batch ≤ b + 1 := by
  cases o with
  | success evs =>
      simp only [processBatch]
      split_ifs with hs hm hm
      · exact ⟨[⟨st.events ++ evs, b + 1, st.failed_batches.erase (b + 1)⟩],
          rfl, by simp⟩
      · exact ⟨[⟨st.events ++ evs, b + 1, st.failed_batches⟩], rfl, by simp⟩
      · exact ⟨[], by simp, by simp⟩
      · exact ⟨[], by simp, by simp⟩
  | noEventsKey => exact ⟨[], by simp [processBatch], by simp⟩
  | parseFailure => exact ⟨[], by simp [processBatch], by simp⟩
  | callFailure =>
      simp only [processBatch]
      split_ifs with hm
      · exact ⟨[⟨st.events, b, st.failed_batches⟩], rfl, by simp⟩
      · exact ⟨[⟨st.events, b, st.failed_batches ++ [b + 1]⟩], rfl, by simp⟩

theorem runBatches_saves_snapshot (behavior : Nat → BatchOutcome) (bs : List Nat)
    (st : LoopState) :
    ∃ ds, (runBatches behavior bs st).saves = st.saves ++ ds ∧
      ∀ cp ∈ ds, ∃ bs1 b bs2, bs = bs1 ++ b :: bs2 ∧ cp.last_batch ≤ b + 1 ∧
        cp.events = (runBatches behavior (bs1 ++ [b]) st).events ∧
        cp.failed_batches = (runBatches behavior (bs1 ++ [b]) st).failed_batches := by
  induction bs generalizing st with
  | nil => exact ⟨[], by simp [runBatches]⟩
  | cons b bs ih =>
      obtain ⟨ds0, h0, hprop0⟩ := processBatch_saves b (behavior b) st
      obtain ⟨ds1, h1, hprop1⟩ := ih (processBatch b (behavior b) st)
      refine ⟨ds0 ++ ds1, ?_, ?_⟩
      · simp [runBatches, h1, h0]
      · intro cp hcp
        rcases List.mem_append.mp hcp with hcp | hcp
        · exact ⟨[], b, bs, rfl, (hprop0 cp hcp).2.2, (hprop0 cp hcp).1,
            (hprop0 cp hcp).2.1⟩
        · obtain ⟨bs1, b', bs2, heq, hlb, he, hf⟩ := hprop1 cp hcp
          exact ⟨b :: bs1, b', bs2, by simp [heq], hlb, he, hf⟩

theorem contributions_mem (behavior : Nat → BatchOutcome) (bs : List Nat)
    (e : BatchEvent) (he : e ∈ contributions behavior bs) :
    ∃ b ∈ bs, e ∈ successEvents (behavior b) := by
  induction bs with
  | nil => simp [contributions] at he
  | cons b bs ih =>
      simp only [contributions, List.mem_append] at he
      rcases he with he | he
      · exact ⟨b, by simp, he⟩
      · obtain ⟨b', hb', he'⟩ := ih he
        exact ⟨b', by simp [hb'], he'⟩

theorem contributions_count_zero (behavior : Nat → BatchOutcome) (bs : List Nat)
    (e : BatchEvent) (h : ∀ b ∈ bs, e ∉ successEvents (behavior b)) :
    (contributions behavior bs).count e = 0 := by
  induction bs with
  | nil => simp [contributions]
  | cons b bs ih =>
      simp only [contributions, List.count_append]
      rw [List.count_eq_zero.mpr (h b (by simp)), ih (fun b' hb' => h b' (by simp [hb']))]

theorem contributions_count (behavior : Nat → BatchOutcome) (bs : List Nat)
    (B : Nat) (e : BatchEvent) (hnd : bs.Nodup) (hB : B ∈ bs)
    (h : ∀ b ∈ bs, b ≠ B → e ∉ successEvents (behavior b)) :
    (contributions behavior bs).count e = (successEvents (behavior B)).count e := by
  induction bs with
  | nil => simp at hB
  | cons b bs ih =>
      simp only [contributions, List.count_append]
      rcases List.mem_cons.mp hB with hB | hB
      · subst hB
        rw [contributions_count_zero behavior bs e
          (fun b' hb' => h b' (by simp [hb'])
            (fun hc => (List.nodup_cons.mp hnd).1 (hc ▸ hb')))]
        omega
      · rw [List.count_eq_zero.mpr (h b (by simp)
          (fun hc => (List.nodup_cons.mp hnd).1 (hc ▸ hB))),
          ih (List.nodup_cons.mp hnd).2 hB (fun b' hb' => h b' (by simp [hb']))]
        omega


theorem foldl_min_le_init (l : List Nat) (y : Nat) : List.foldl Nat.min y l ≤ y := by
  induction l generalizing y with
  | nil => simp
  | cons z zs ih => exact le_trans (ih (Nat.min y z)) (Nat.min_le_left y z)

theorem foldl_min_le_mem (l : List Nat) (y x : Nat) (hx : x ∈ l) :
    List.foldl Nat.min y l ≤ x := by
  induction l generalizing y with
  | nil => simp at hx
  | cons z zs ih =>
      rcases List.mem_cons.mp hx with h | h
      · subst h
        exact le_trans (foldl_min_le_init zs (Nat.min y x)) (Nat.min_le_right y x)
      · exact ih (Nat.min y z) h

theorem minList_le_of_mem (l : List Nat) (x : Nat) (hx : x ∈ l) : minList l ≤ x := by
  match l with
  | [] => simp at hx
  | y :: ys =>
      simp only [minList]
      rcases List.mem_cons.mp hx with h | h
      · subst h
        exact foldl_min_le_init ys x
      · exact foldl_min_le_mem ys y x h

/-! ## Claim C1: monotonic finalize -/

/-- C1 counterexample: with existing artifact E = (1 page, 1 image) and an
identical candidate C, the candidate satisfies count(C) >= count(E) and
nonEmptyCount(C) >= nonEmptyCount(E), so the claim demands a write, yet both
finalize checks reject it and leave the existing artifact unchanged. -/
theorem c1_monotonic_finalize_counterexample :
    (MediaArtifact.mk 1 1).pages ≥ (MediaArtifact.mk 1 1).pages ∧
    (MediaArtifact.mk 1 1).images ≥ (MediaArtifact.mk 1 1).images ∧
    extractMediaShouldWrite (some ⟨1, 1⟩) ⟨1, 1⟩ = false ∧
    scraperShouldWrite (some ⟨1, 1⟩) ⟨1, 1⟩ = false ∧
    finalizeExtractMedia (some ⟨1, 1⟩) ⟨1, 1⟩ = (some ⟨1, 1⟩, false) := by
  decide

/-- C1 (amended): the finalize checks never consult the candidate's non-empty
count.  The media extractor writes iff the candidate is nonempty and has
strictly more pages than the existing artifact, or equally many while the
existing artifact has zero downloaded images; the scraper writes iff the
candidate is nonempty and the existing artifact has fewer pages or zero
images.  Whenever the check rejects, the existing artifact is returned
unchanged with accepted = false. -/
theorem c1_monotonic_finalize_amended (e c : MediaArtifact) :
    (extractMediaShouldWrite (some e) c =
      decide (0 < c.pages ∧ (e.pages < c.pages ∨ (e.pages = c.pages ∧ e.images = 0)))) ∧
    (scraperShouldWrite (some e) c =
      decide (0 < c.pages ∧ (e.pages < c.pages ∨ e.images = 0))) ∧
    (extractMediaShouldWrite (some e) c = false →
      finalizeExtractMedia (some e) c = (some e, false)) := by
  obtain ⟨ep, ei⟩ := e
  obtain ⟨cp, ci⟩ := c
  refine ⟨?_, ?_, ?_⟩
  · simp only [extractMediaShouldWrite]
    split_ifs with hb1 hb2 hb3 <;> simp_all <;> omega
  · simp only [scraperShouldWrite]
    split_ifs with hc1 hc2 <;> simp_all <;> omega
  · intro h
    simp [finalizeExtractMedia, h]

/-- C1 amended witness at E = C = (1 page, 1 image): the rejected finalize
leaves the existing artifact unchanged with accepted = false. -/
theorem c1_monotonic_finalize_witness :
    extractMediaShouldWrite (some ⟨1, 1⟩) ⟨1, 1⟩ = false ∧
    finalizeExtractMedia (some ⟨1, 1⟩) ⟨1, 1⟩ = (some ⟨1, 1⟩, false) :=
  ⟨by decide, (c1_monotonic_finalize_amended ⟨1, 1⟩ ⟨1, 1⟩).2.2 (by decide)⟩

/-! ## Claim C4: checkpoint-on-failure -/

/-- C4 counterexample: a batch whose result fails JSON parsing is recorded in
the in-memory failed list, but no checkpoint is persisted at that point, while
the claim requires an immediate persist on every failure. -/
theorem c4_checkpoint_on_failure_counterexample :
    (processBatch 0 .parseFailure initialLoopState).failed_batches = [1] ∧
    (processBatch 0 .parseFailure initialLoopState).saves = [] := by
  decide

/-- C4 (amended): when the service call fails (retries exhausted), the batch
number b+1 is added to failedBatchNumbers and a checkpoint recording the
current events, last_batch = b (not advanced) and the updated failed list is
persisted immediately.  When the result fails JSON parsing, the batch number
is added to the in-memory failed list but no checkpoint is persisted during
that iteration.  A result that parses without an events key changes nothing:
it is neither recorded as a failure nor checkpointed. -/
theorem c4_checkpoint_on_failure_amended (b : Nat) (st : LoopState) :
    ((b + 1) ∈ (processBatch b .callFailure st).failed_batches ∧
      (processBatch b .callFailure st).saves =
        st.saves ++ [⟨st.events, b, (processBatch b .callFailure st).failed_batches⟩]) ∧
    ((b + 1) ∈ (processBatch b .parseFailure st).failed_batches ∧
      (processBatch b .parseFailure st).saves = st.saves) ∧
    processBatch b .noEventsKey st = st := by
  by_cases h : (b + 1) ∈ st.failed_batches <;>
    simp [processBatch, h]

/-! ## Claim C6: truncation correctness -/

theorem truncationMarker_length : truncationMarker.length = 36 := by decide

/-- C6 counterexample: an 11-character content with share S = 700000 / 70000
= 10 exceeds its share, but the assembled text (6 head characters, the
36-character marker, 4 tail characters) has length 46, which is not less than
the original length 11. -/
theorem c6_truncation_counterexample :
    charsPerPage 70000 < "abcdefghijk".toList.length ∧
    ¬ ((truncatePage "abcdefghijk".toList (charsPerPage 70000)).length <
        "abcdefghijk".toList.length) := by
  decide

/-- C6 (amended): for an item of length L exceeding its share S with a
positive tail cutoff, the assembled text is exactly the first 6*S/10
characters, the marker, and the last 4*S/10 characters, its length is exactly
6*S/10 + 36 + 4*S/10, and this is less than L whenever L > S + 36 (for
S < L <= S + 36 the assembled text can be at least as long as the content,
and when 4*S/10 = 0 the Python slice content[-0:] appends the whole
content). -/
theorem c6_truncation_amended (content : List Char) (S : Nat)
    (h36 : S + 36 < content.length) (hpos : 0 < 4 * S / 10) :
    truncatePage content S =
      content.take (6 * S / 10) ++ truncationMarker ++
        content.drop (content.length - 4 * S / 10) ∧
    (truncatePage content S).length = 6 * S / 10 + 36 + 4 * S / 10 ∧
    (truncatePage content S).length < content.length := by
  have h6 : 6 * S / 10 ≤ S := by
    have := Nat.div_mul_le_self (6 * S) 10
    omega
  have h4 : 4 * S / 10 ≤ S := by
    have := Nat.div_mul_le_self (4 * S) 10
    omega
  have h64 : 6 * S / 10 + 4 * S / 10 ≤ S := by
    have a6 := Nat.div_mul_le_self (6 * S) 10
    have a4 := Nat.div_mul_le_self (4 * S) 10
    omega
  have hl : S < content.length := by omega
  have hstruct : truncatePage content S =
      content.take (6 * S / 10) ++ truncationMarker ++
        content.drop (content.length - 4 * S / 10) := by
    simp only [truncatePage, pyTailSlice, if_pos hl, if_neg (by omega : ¬ 4 * S / 10 = 0)]
  refine ⟨hstruct, ?_, ?_⟩
  · rw [hstruct]
    simp only [List.length_append, List.length_take, List.length_drop,
      truncationMarker_length]
    omega
  · rw [hstruct]
    simp only [List.length_append, List.length_take, List.length_drop,
      truncationMarker_length]
    omega

/-- C6 amended witness: content of 100 characters with share 50 is assembled
into 30 + 36 + 20 = 86 characters, less than 100. -/
theorem c6_truncation_witness :
    50 + 36 < (List.replicate 100 'a').length ∧ 0 < 4 * 50 / 10 ∧
    (truncatePage (List.replicate 100 'a') 50).length < (List.replicate 100 'a').length :=
  ⟨by decide, by decide,
    (c6_truncation_amended (List.replicate 100 'a') 50 (by decide) (by decide)).2.2⟩

/-! ## Claim C9: corrupt-checkpoint tolerance -/

/-- C9 counterexample: when the discovery checkpoint file fails to parse, the
scraper's loader logs at error level, not warning level as the claim states. -/
theorem c9_corrupt_checkpoint_counterexample :
    scraperLoadLog .parseFailure = some LogLevel.error ∧
    scraperLoadLog .parseFailure ≠ some LogLevel.warning := by
  decide

/-- C9 (amended): a checkpoint file that fails to parse never raises: the
analyzer load yields empty events, empty failed list and start batch 0 and
logs a warning, after which the timeline phase runs exactly as a fresh run;
the scraper's discovery load yields none (so the crawl starts fresh from the
start url) but logs at error level rather than warning level. -/
theorem c9_corrupt_checkpoint_amended (startUrl total : Nat)
    (behavior : Nat → BatchOutcome) :
    analyzerResume .parseFailure = ([], [], 0) ∧
    analyzerLoadLog .parseFailure = some LogLevel.warning ∧
    rerun behavior total .parseFailure = runFresh behavior total ∧
    scraperLoadResult .parseFailure = none ∧
    scraperLoadLog .parseFailure = some LogLevel.error ∧
    discoverInit startUrl (scraperLoadResult .parseFailure) = initialCrawlState startUrl :=
  ⟨rfl, rfl, rfl, rfl, rfl, rfl⟩

/-! ## Claim C5: retry classification -/

/-- C5 counterexample: an unexpected error (outside the transient allow-list)
is classified retryable by the scraper's catch-all handler, so the request is
retried until the budget is exhausted (4 attempts in total) instead of being
treated as fatal with a single attempt. -/
theorem c5_retry_allowlist_counterexample :
    scraperErrorRetried FetchFailure.unexpected = true ∧
    makeRequest (fun _ => Except.error FetchFailure.unexpected) 0 = (none, 4) ∧
    (makeRequest (fun _ => Except.error FetchFailure.unexpected) 0).2 ≠ 1 := by
  have h : makeRequest (fun _ => Except.error FetchFailure.unexpected) 0 = (none, 4) := by
    simp [makeRequest, scraperErrorRetried, scraperMaxRetries]
  exact ⟨rfl, h, by rw [h]; decide⟩

/-- C5 (amended): the scraper treats only non-allow-listed HTTP statuses as
fatal without a retry (one attempt); timeouts, connection errors, the listed
statuses and also any unexpected error are retried.  The analyzer raises
immediately, with no retry, on any error for which no allow-listed name
occurs in the type name or message. -/
theorem c5_retry_allowlist_amended (responses : Nat → Except FetchFailure Nat)
    (attempts : Nat → Except (String × String) String) (rc rc' s : Nat)
    (t m : String) (h1 : responses rc = .error (.httpError s))
    (h2 : s ∉ retryableHttpStatuses) (h3 : attempts rc' = .error (t, m))
    (h4 : analyzerIsRetryable t m = false) :
    makeRequest responses rc = (none, 1) ∧
    analyzeBatch attempts rc' = .error (t, m) := by
  constructor
  · rw [makeRequest, h1]
    simp [scraperErrorRetried, h2]
  · rw [analyzeBatch, h3]
    simp [h4]

/-- C5 amended witness: an HTTP 404 gives up after one attempt, and an AI-side
ValidationException raises immediately. -/
theorem c5_retry_allowlist_witness :
    (404 : Nat) ∉ retryableHttpStatuses ∧
    analyzerIsRetryable "ValidationException" "" = false ∧
    makeRequest (fun _ => Except.error (FetchFailure.httpError 404)) 0 = (none, 1) ∧
    analyzeBatch (fun _ => Except.error ("ValidationException", "")) 0 =
      Except.error ("ValidationException", "") :=
  ⟨by decide, by decide,
   (c5_retry_allowlist_amended (fun _ => Except.error (FetchFailure.httpError 404))
     (fun _ => Except.error ("ValidationException", "")) 0 0 404
     "ValidationException" "" rfl (by decide) rfl (by decide)).1,
   (c5_retry_allowlist_amended (fun _ => Except.error (FetchFailure.httpError 404))
     (fun _ => Except.error ("ValidationException", "")) 0 0 404
     "ValidationException" "" rfl (by decide) rfl (by decide)).2⟩

/-! ## Claim C8: dedup idempotence -/

theorem dedupGo_sublist (seen : List String) (l : List MediaRecord) :
    (dedupGo seen l).Sublist l := by
  induction l generalizing seen with
  | nil => simp [dedupGo]
  | cons r rs ih =>
      simp only [dedupGo]
      split_ifs with h
      · exact (ih (r.url :: seen)).cons₂ r
      · exact (ih seen).cons r

theorem dedupGo_idem (l : List MediaRecord) (seen seen' : List String)
    (hsub : ∀ u ∈ seen', u ∈ seen) :
    dedupGo seen' (dedupGo seen l) = dedupGo seen l := by
  induction l generalizing seen seen' with
  | nil => simp [dedupGo]
  | cons r rs ih =>
      simp only [dedupGo]
      split_ifs with h
      · have hcond : r.url ≠ "" ∧ r.url ∉ seen' := ⟨h.1, fun hm => h.2 (hsub _ hm)⟩
        simp only [dedupGo, if_pos hcond]
        rw [ih (r.url :: seen) (r.url :: seen')]
        intro u hu
        rcases List.mem_cons.mp hu with hu | hu
        · simp [hu]
        · simp [hsub u hu]
      · exact ih seen seen' hsub

theorem dedupGo_keeps_first (r : MediaRecord) (X2 : List MediaRecord) :
    ∀ (X1 : List MediaRecord) (seen : List String), r.url ≠ "" → r.url ∉ seen →
      (∀ s ∈ X1, s.url ≠ r.url) → r ∈ dedupGo seen (X1 ++ r :: X2) := by
  intro X1
  induction X1 with
  | nil =>
      intro seen hr hseen _
      simp only [List.nil_append, dedupGo, if_pos (And.intro hr hseen)]
      exact List.mem_cons_self _ _
  | cons s X1' ih =>
      intro seen hr hseen hX1
      simp only [List.cons_append, dedupGo]
      split_ifs with h
      · refine List.mem_cons_of_mem _ (ih (s.url :: seen) hr ?_ ?_)
        · intro hm
          rcases List.mem_cons.mp hm with hm | hm
          · exact (hX1 s (by simp)) hm.symm
          · exact hseen hm
        · exact fun s' hs' => hX1 s' (by simp [hs'])
      · exact ih seen hr hseen (fun s' hs' => hX1 s' (by simp [hs']))

/-- C8 counterexample: two records that share the (empty) url identity, yet
the first occurrence's record is not kept: records whose url is empty are
dropped entirely by the dedup loop. -/
theorem c8_dedup_counterexample :
    (MediaRecord.mk "" 1).url = (MediaRecord.mk "" 2).url ∧
    MediaRecord.mk "" 1 ∉ dedupByUrl [⟨"", 1⟩, ⟨"", 2⟩] := by
  decide

/-- C8 (amended): dedup is idempotent and order-preserving (its output is a
sublist of the input), and among records with a non-empty url the first
occurrence's full record is kept; records with an empty url are dropped. -/
theorem c8_dedup_amended (X X1 X2 : List MediaRecord) (r : MediaRecord)
    (hX : X = X1 ++ r :: X2) (hr : r.url ≠ "")
    (hfirst : ∀ s ∈ X1, s.url ≠ r.url) :
    dedupByUrl (dedupByUrl X) = dedupByUrl X ∧
    (dedupByUrl X).Sublist X ∧
    r ∈ dedupByUrl X := by
  refine ⟨dedupGo_idem X [] [] (by simp), dedupGo_sublist [] X, ?_⟩
  rw [hX]
  exact dedupGo_keeps_first r X2 X1 [] hr (by simp) hfirst

/-- C8 amended witness on a two-record list sharing the url "a". -/
theorem c8_dedup_witness :
    (MediaRecord.mk "a" 1).url ≠ "" ∧
    dedupByUrl (dedupByUrl [⟨"a", 1⟩, ⟨"a", 2⟩]) = dedupByUrl [⟨"a", 1⟩, ⟨"a", 2⟩] ∧
    MediaRecord.mk "a" 1 ∈ dedupByUrl [⟨"a", 1⟩, ⟨"a", 2⟩] :=
  ⟨by decide,
   (c8_dedup_amended [⟨"a", 1⟩, ⟨"a", 2⟩] [] [⟨"a", 2⟩] ⟨"a", 1⟩ rfl (by decide)
     (by simp)).1,
   (c8_dedup_amended [⟨"a", 1⟩, ⟨"a", 2⟩] [] [⟨"a", 2⟩] ⟨"a", 1⟩ rfl (by decide)
     (by simp)).2.2⟩

/-! ## Claim C7: frontier and visited -/

theorem crawlStep_nil (web : Nat → FetchResult) (valid : Nat → Bool)
    (maxPages : Nat) (st : CrawlState) (htv : st.toVisit = []) :
    crawlStep web valid maxPages st = st := by
  simp only [crawlStep, htv]

theorem crawlStep_capped (web : Nat → FetchResult) (valid : Nat → Bool)
    (maxPages : Nat) (st : CrawlState) (url : Nat) (rest : List Nat)
    (htv : st.toVisit = url :: rest) (hcap : ¬ st.discovered.length < maxPages) :
    crawlStep web valid maxPages st = st := by
  simp only [crawlStep, htv, if_neg hcap]

theorem crawlStep_skip (web : Nat → FetchResult) (valid : Nat → Bool)
    (maxPages : Nat) (st : CrawlState) (url : Nat) (rest : List Nat)
    (htv : st.toVisit = url :: rest) (hcap : st.discovered.length < maxPages)
    (hvis : url ∈ st.visited) :
    crawlStep web valid maxPages st = { st with toVisit := rest } := by
  simp only [crawlStep, htv, if_pos hcap, if_pos hvis]

theorem crawlStep_process (web : Nat → FetchResult) (valid : Nat → Bool)
    (maxPages : Nat) (st : CrawlState) (url : Nat) (rest : List Nat)
    (htv : st.toVisit = url :: rest) (hcap : st.discovered.length < maxPages)
    (hvis : url ∉ st.visited) :
    (crawlStep web valid maxPages st).processedLog = st.processedLog ++ [url] ∧
    (crawlStep web valid maxPages st).visited = st.visited ++ [url] := by
  rcases hweb : web url with _ | ⟨title, links⟩
  · simp [crawlStep, htv, hcap, hvis, hweb]
  · rcases title with _ | t
    · simp [crawlStep, htv, hcap, hvis, hweb]
    · by_cases hd : url ∈ List.map Prod.fst st.discovered <;>
        simp [crawlStep, htv, hcap, hvis, hweb, hd]

theorem crawlStep_processed_inv (web : Nat → FetchResult) (valid : Nat → Bool)
    (maxPages : Nat) (st : CrawlState)
    (h1 : st.processedLog.Nodup) (h2 : ∀ u ∈ st.processedLog, u ∈ st.visited) :
    (crawlStep web valid maxPages st).processedLog.Nodup ∧
    ∀ u ∈ (crawlStep web valid maxPages st).processedLog,
      u ∈ (crawlStep web valid maxPages st).visited := by
  rcases htv : st.toVisit with _ | ⟨url, rest⟩
  · rw [crawlStep_nil web valid maxPages st htv]
    exact ⟨h1, h2⟩
  · by_cases hcap : st.discovered.length < maxPages
    · by_cases hvis : url ∈ st.visited
      · rw [crawlStep_skip web valid maxPages st url rest htv hcap hvis]
        exact ⟨h1, h2⟩
      · have heq := crawlStep_process web valid maxPages st url rest htv hcap hvis
        have hu : url ∉ st.processedLog := fun hmem => hvis (h2 url hmem)
        rw [heq.1, heq.2]
        refine ⟨by simp [List.nodup_append, h1, hu], ?_⟩
        intro u huu
        rcases List.mem_append.mp huu with h | h
        · exact List.mem_append.mpr (Or.inl (h2 u h))
        · exact List.mem_append.mpr (Or.inr h)
    · rw [crawlStep_capped web valid maxPages st url rest htv hcap]
      exact ⟨h1, h2⟩

/-- C7 counterexample: when the seed links twice to the same page, that page
is enqueued twice; after the crawler visits it once, the second copy is still
in the frontier while the page is already in the visited set, violating the
claimed disjointness invariant. -/
theorem c7_frontier_disjoint_counterexample :
    let web : Nat → FetchResult := fun u => if u = 0 then .page (some 100) [1, 1] else .failed
    let st := crawlIter web (fun _ => true) 10 2 (initialCrawlState 0)
    ¬ (∀ u ∈ st.toVisit, u ∉ st.visited) := by
  decide

/-- C7 (amended): the queue may hold already-visited identities (duplicates
are enqueued before their first visit), but the pop guard discards them, so
no identity is ever fetched twice: the log of actually processed identities
has no duplicates and is contained in the visited set. -/
theorem c7_frontier_disjoint_amended (web : Nat → FetchResult) (valid : Nat → Bool)
    (maxPages n startUrl u : Nat)
    (hu : u ∈ (crawlIter web valid maxPages n (initialCrawlState startUrl)).processedLog) :
    (crawlIter web valid maxPages n (initialCrawlState startUrl)).processedLog.Nodup ∧
    u ∈ (crawlIter web valid maxPages n (initialCrawlState startUrl)).visited := by
  have main : ∀ (m : Nat) (st : CrawlState), st.processedLog.Nodup →
      (∀ v ∈ st.processedLog, v ∈ st.visited) →
      ((crawlIter web valid maxPages m st).processedLog.Nodup ∧
        ∀ v ∈ (crawlIter web valid maxPages m st).processedLog,
          v ∈ (crawlIter web valid maxPages m st).visited) := by
    intro m
    induction m with
    | zero => intro st ha hb; exact ⟨ha, hb⟩
    | succ k ih =>
        intro st ha hb
        have step := crawlStep_processed_inv web valid maxPages st ha hb
        exact ih _ step.1 step.2
  have res := main n (initialCrawlState startUrl) (by simp [initialCrawlState])
    (by simp [initialCrawlState])
  exact ⟨res.1, res.2 u hu⟩

/-- C7 amended witness on the duplicate-link crawl after two steps. -/
theorem c7_frontier_disjoint_witness :
    (0 : Nat) ∈ (crawlIter (fun u => if u = 0 then .page (some 100) [1, 1] else .failed)
      (fun _ => true) 10 2 (initialCrawlState 0)).processedLog ∧
    ((crawlIter (fun u => if u = 0 then .page (some 100) [1, 1] else .failed)
      (fun _ => true) 10 2 (initialCrawlState 0)).processedLog.Nodup ∧
      (0 : Nat) ∈ (crawlIter (fun u => if u = 0 then .page (some 100) [1, 1] else .failed)
        (fun _ => true) 10 2 (initialCrawlState 0)).visited) :=
  ⟨by decide, c7_frontier_disjoint_amended
    (fun u => if u = 0 then .page (some 100) [1, 1] else .failed)
    (fun _ => true) 10 2 0 0 (by decide)⟩

/-! ## Claim C2: resume idempotence -/

/-- C2 counterexample: with 6 batches all succeeding, the run's last persisted
checkpoint was written at batch 5 (the only multiple of the 5-batch cadence)
and no checkpoint is written at loop exit; re-running from that checkpoint
reprocesses batch 6 and appends its events again, so the accumulator gains
new items. -/
theorem c2_resume_idempotence_counterexample :
    (rerun (fun _ => .success [7]) 6
        (finalCheckpointRead (runFresh (fun _ => .success [7]) 6))).events ≠
      (analyzerResume (finalCheckpointRead (runFresh (fun _ => .success [7]) 6))).1 := by
  decide

/-- C2 (amended): re-running from the checkpoint a run produced appends no
new items and leaves failedBatchNumbers unchanged provided that checkpoint
has an empty failure set and its last_batch covers all batches (which happens
exactly when the final batch triggered the every-5-batches save); otherwise
the batches after the last persisted save are reprocessed and their results
re-appended. -/
theorem c2_resume_idempotence_amended (behavior : Nat → BatchOutcome) (total : Nat)
    (c : Checkpoint) (_h1 : finalCheckpointRead (runFresh behavior total) = .ok c)
    (h2 : c.failed_batches = []) (h3 : total ≤ c.last_batch) :
    (rerun behavior total (.ok c)).events = c.events ∧
    (rerun behavior total (.ok c)).failed_batches = c.failed_batches := by
  have hres : analyzerResume (.ok c) = (c.events, c.failed_batches, c.last_batch) := by
    simp [analyzerResume, h2]
  have hrange : batchRange c.last_batch total = [] := by
    unfold batchRange
    rw [Nat.sub_eq_zero_of_le h3]
    rfl
  simp [rerun, hres, hrange, runBatches]

/-- C2 amended witness: 5 batches of one event each; the checkpoint written
at batch 5 covers the whole run, and re-running from it changes nothing. -/
theorem c2_resume_idempotence_witness :
    finalCheckpointRead (runFresh (fun _ => .success [3]) 5) =
      .ok ⟨[3, 3, 3, 3, 3], 5, []⟩ ∧
    (rerun (fun _ => .success [3]) 5 (.ok ⟨[3, 3, 3, 3, 3], 5, []⟩)).events =
      [3, 3, 3, 3, 3] ∧
    (rerun (fun _ => .success [3]) 5 (.ok ⟨[3, 3, 3, 3, 3], 5, []⟩)).failed_batches = [] :=
  ⟨by decide,
   (c2_resume_idempotence_amended (fun _ => .success [3]) 5 ⟨[3, 3, 3, 3, 3], 5, []⟩
     (by decide) rfl (by decide)).1,
   (c2_resume_idempotence_amended (fun _ => .success [3]) 5 ⟨[3, 3, 3, 3, 3], 5, []⟩
     (by decide) rfl (by decide)).2⟩

/-! ## Claim C10: timeline sorting -/

/-- C10 counterexample: an event whose date fails to parse shares the sort
key (9999, 1, 1) with an event whose date is the parseable year "9999"; the
stable sort leaves the unparseable event before the parseable one, so it is
not ordered after all events with parseable dates. -/
theorem c10_sort_counterexample :
    parseDateForSortE "unknown".toList = none ∧
    parseDateForSortE "9999".toList = some (9999, 1, 1) ∧
    sortTimeline [⟨some "unknown".toList, 0⟩, ⟨some "9999".toList, 1⟩] =
      [⟨some "unknown".toList, 0⟩, ⟨some "9999".toList, 1⟩] := by
  decide

/-- C10 (amended): before the timeline artifact is written the events are
permuted into non-decreasing order of the parsed (year, month, day) key with
missing components defaulting to 1; every event whose date fails to parse
receives the sentinel key (9999, 1, 1) and is therefore ordered after every
event whose key is strictly below (9999, 1, 1), but may tie with or precede
events whose parsed year is 9999 or larger. -/
theorem c10_sort_amended (evs : List TimelineEvent) (i j : Nat)
    (hi : i < (sortTimeline evs).length) (hj : j < (sortTimeline evs).length)
    (hfail : parseDateForSortE ((sortTimeline evs)[i].date.getD "9999".toList) = none)
    (hlt : dateKeyLt (eventSortKey ((sortTimeline evs)[j])) (9999, 1, 1)) :
    List.Sorted eventLe (sortTimeline evs) ∧
    (sortTimeline evs).Perm evs ∧
    eventSortKey ((sortTimeline evs)[i]) = (9999, 1, 1) ∧
    j < i := by
  have hsorted : List.Sorted eventLe (sortTimeline evs) :=
    List.sorted_insertionSort eventLe evs
  have hkey : eventSortKey ((sortTimeline evs)[i]) = (9999, 1, 1) := by
    unfold eventSortKey parseDateForSort
    rw [hfail]
    rfl
  refine ⟨hsorted, List.perm_insertionSort eventLe evs, hkey, ?_⟩
  by_contra hji
  push_neg at hji
  rcases Nat.lt_or_ge i j with hij | hij
  · have hp := List.pairwise_iff_getElem.mp hsorted i j hi hj hij
    unfold eventLe at hp
    rw [hkey] at hp
    unfold dateKeyLeB at hp
    unfold dateKeyLt at hlt
    simp at hp hlt
    omega
  · have heq : i = j := Nat.le_antisymm hji hij
    subst heq
    rw [hkey] at hlt
    unfold dateKeyLt at hlt
    simp at hlt

/-- C10 amended witness: sorting an unparseable-dated event together with a
year-2004 event puts the 2004 event first and the unparseable one last. -/
theorem c10_sort_witness :
    parseDateForSortE ((sortTimeline [⟨some "zz".toList, 0⟩, ⟨some "2004".toList, 1⟩])[1].date.getD
      "9999".toList) = none ∧
    (List.Sorted eventLe (sortTimeline [⟨some "zz".toList, 0⟩, ⟨some "2004".toList, 1⟩]) ∧
      (0 : Nat) < 1) :=
  ⟨by decide,
   (c10_sort_amended [⟨some "zz".toList, 0⟩, ⟨some "2004".toList, 1⟩] 1 0
     (by decide) (by decide) (by decide) (Or.inl (by decide))).1,
   (c10_sort_amended [⟨some "zz".toList, 0⟩, ⟨some "2004".toList, 1⟩] 1 0
     (by decide) (by decide) (by decide) (Or.inl (by decide))).2.2.2⟩

/-! ## Claim C3: failure-set self-healing -/

theorem mem_batchRange {m start total : Nat} :
    m ∈ batchRange start total ↔ start ≤ m ∧ m < total := by
  unfold batchRange
  rw [List.mem_range'_1]
  omega

theorem nodup_batchRange (start total : Nat) : (batchRange start total).Nodup := by
  unfold batchRange
  exact List.nodup_range' _ _

theorem batchRange_split (start B total : Nat) (h1 : start ≤ B) (h2 : B < total) :
    batchRange start total = batchRange start B ++ B :: batchRange (B + 1) total := by
  unfold batchRange
  have e1 : B :: List.range' (B + 1) (total - (B + 1)) = List.range' B (total - B) := by
    rw [show total - B = (total - (B + 1)) + 1 by omega, List.range'_succ]
  rw [e1]
  have e2 := List.range'_append start (B - start) (total - B) 1
  rw [show start + 1 * (B - start) = B by omega] at e2
  rw [show total - B + (B - start) = total - start by omega] at e2
  exact e2.symm

theorem processBatch_success_failed (b : Nat) (evs : List BatchEvent) (st : LoopState) :
    (processBatch b (.success evs) st).failed_batches =
      if (b + 1) ∈ st.failed_batches then st.failed_batches.erase (b + 1)
      else st.failed_batches := by
  by_cases h1 : (b + 1) % checkpointInterval = 0 <;>
    by_cases h2 : (b + 1) ∈ st.failed_batches <;> simp [processBatch, h1, h2]

theorem processBatch_failure_mem (b : Nat) (o : BatchOutcome) (st : LoopState)
    (ho : o = .callFailure ∨ o = .parseFailure) :
    (b + 1) ∈ (processBatch b o st).failed_batches := by
  rcases ho with ho | ho <;> subst ho <;>
    by_cases h : (b + 1) ∈ st.failed_batches <;> simp [processBatch, h]

theorem processBatch_success_not_mem_self (b : Nat) (evs : List BatchEvent)
    (st : LoopState) (hnd : st.failed_batches.Nodup) :
    (b + 1) ∉ (processBatch b (.success evs) st).failed_batches := by
  rw [processBatch_success_failed]
  split_ifs with h
  · intro hmem
    exact ((List.Nodup.mem_erase_iff hnd).mp hmem).1 rfl
  · exact h

theorem processBatch_failed_src (b : Nat) (o : BatchOutcome) (st : LoopState)
    (x : Nat) (hx : x ∈ (processBatch b o st).failed_batches) :
    x ∈ st.failed_batches ∨ x = b + 1 := by
  cases o with
  | success evs =>
      rw [processBatch_success_failed] at hx
      split_ifs at hx with h
      · exact Or.inl (List.mem_of_mem_erase hx)
      · exact Or.inl hx
  | noEventsKey => exact Or.inl hx
  | parseFailure =>
      simp only [processBatch] at hx
      split_ifs at hx with h
      · exact Or.inl hx
      · rcases List.mem_append.mp hx with h1 | h1
        · exact Or.inl h1
        · exact Or.inr (by simpa using h1)
  | callFailure =>
      simp only [processBatch] at hx
      split_ifs at hx with h
      · exact Or.inl hx
      · rcases List.mem_append.mp hx with h1 | h1
        · exact Or.inl h1
        · exact Or.inr (by simpa using h1)

theorem runBatches_failed_src (behavior : Nat → BatchOutcome) (bs : List Nat)
    (st : LoopState) (x : Nat)
    (hx : x ∈ (runBatches behavior bs st).failed_batches) :
    x ∈ st.failed_batches ∨ ∃ b ∈ bs, x = b + 1 := by
  induction bs generalizing st with
  | nil => exact Or.inl hx
  | cons b bs ih =>
      rcases ih (processBatch b (behavior b) st) hx with h | ⟨b1, hb1, hx1⟩
      · rcases processBatch_failed_src b (behavior b) st x h with h1 | h1
        · exact Or.inl h1
        · exact Or.inr ⟨b, by simp, h1⟩
      · exact Or.inr ⟨b1, by simp [hb1], hx1⟩

theorem prefix_of_batchRange (total : Nat) (l1 l2 : List Nat)
    (h : l1 ++ l2 = batchRange 0 total) :
    l1 = batchRange 0 l1.length ∧ l1.length ≤ total := by
  have hlen : l1.length + l2.length = total := by
    have := congrArg List.length h
    simpa [batchRange, List.length_range'] using this
  have hsplit := List.range'_append 0 l1.length (total - l1.length) 1
  rw [show 0 + 1 * l1.length = l1.length by omega,
      show total - l1.length + l1.length = total by omega] at hsplit
  have h2 : l1 ++ l2 =
      List.range' 0 l1.length ++ List.range' l1.length (total - l1.length) := by
    rw [h]
    unfold batchRange
    rw [Nat.sub_zero]
    exact hsplit.symm
  have hinj := List.append_inj h2 (by rw [List.length_range'])
  refine ⟨?_, by omega⟩
  rw [hinj.1]
  simp [batchRange]

theorem runBatches_failed_mem_of_failure (behavior : Nat → BatchOutcome)
    (p : List Nat) (st : LoopState) (B : Nat) (hnd : p.Nodup) (hBp : B ∈ p)
    (hfail : behavior B = .callFailure ∨ behavior B = .parseFailure) :
    (B + 1) ∈ (runBatches behavior p st).failed_batches := by
  obtain ⟨u, v, rfl⟩ := List.append_of_mem hBp
  have hBv : B ∉ v := by
    intro hv
    exact (List.nodup_cons.mp (List.nodup_middle.mp hnd)).1
      (List.mem_append.mpr (Or.inr hv))
  rw [runBatches_append]
  simp only [runBatches]
  exact runBatches_failed_mem behavior v _ (B + 1)
    (processBatch_failure_mem B (behavior B) _ hfail)
    (fun b hb heq => hBv (by rw [show B = b by omega]; exact hb))

theorem getLast?_mem_self {α : Type} (l : List α) (a : α) (h : l.getLast? = some a) :
    a ∈ l := by
  obtain ⟨hne, heq⟩ := List.mem_getLast?_eq_getLast (show a ∈ l.getLast? from h)
  exact heq ▸ List.getLast_mem hne

/-- Core of the resumed run: from any loaded state whose failed list has no
duplicates, whose events avoid B's payloads, and whose resume start is at or
before B, re-running with B succeeding leaves B+1 out of the failed list and
accumulates B's events exactly once. -/
theorem rerun_core (behavior2 : Nat → BatchOutcome) (total B start : Nat)
    (evsB : List BatchEvent) (ev0 : List BatchEvent) (fl0 : List Nat)
    (hB : B < total) (hstart : start ≤ B)
    (hsucc2 : behavior2 B = .success evsB)
    (hnd : fl0.Nodup)
    (hdisj2 : ∀ b < total, b ≠ B → ∀ e ∈ evsB, e ∉ successEvents (behavior2 b))
    (hev0 : ∀ e ∈ evsB, e ∉ ev0) :
    (B + 1) ∉ (runBatches behavior2 (batchRange start total) ⟨ev0, fl0, []⟩).failed_batches ∧
    ∀ e ∈ evsB,
      (runBatches behavior2 (batchRange start total) ⟨ev0, fl0, []⟩).events.count e =
        evsB.count e := by
  have hsplit : batchRange start total = batchRange start B ++ B :: batchRange (B + 1) total :=
    batchRange_split start B total hstart hB
  constructor
  · rw [hsplit, runBatches_append]
    simp only [runBatches]
    rw [hsucc2]
    refine runBatches_failed_not_mem _ _ _ _ ?_ ?_
    · exact processBatch_success_not_mem_self B evsB _
        (runBatches_failed_nodup _ _ _ hnd)
    · intro b hb
      have := mem_batchRange.mp hb
      omega
  · intro e he
    have hevents : (runBatches behavior2 (batchRange start total) ⟨ev0, fl0, []⟩).events =
        ev0 ++ contributions behavior2 (batchRange start total) := by
      rw [runBatches_events]
    rw [hevents, List.count_append, List.count_eq_zero.mpr (hev0 e he)]
    rw [contributions_count behavior2 _ B e (nodup_batchRange _ _)
      (mem_batchRange.mpr ⟨hstart, hB⟩)
      (fun b hb hne => hdisj2 b (mem_batchRange.mp hb).2 hne e he)]
    rw [hsucc2]
    simp [successEvents]

/-- C3: if batch B fails during run 1 -- in either recorded failure mode, a
raised call failure or a JSON parse failure -- and B succeeds with events
evsB on run 2, resumed from whatever checkpoint run 1 left behind (possibly
none), then the resumed run always reaches B again, B+1 is absent from
failedBatchNumbers after run 2, and B's results appear exactly once in the
accumulated events (counted per payload, assuming other batches of either
run do not produce B's payloads). -/
theorem c3_failure_self_healing (behavior1 behavior2 : Nat → BatchOutcome)
    (total B : Nat) (evsB : List BatchEvent)
    (hB : B < total)
    (hfail1 : behavior1 B = .callFailure ∨ behavior1 B = .parseFailure)
    (hsucc2 : behavior2 B = .success evsB)
    (hdisj1 : ∀ b < total, b ≠ B → ∀ e ∈ evsB, e ∉ successEvents (behavior1 b))
    (hdisj2 : ∀ b < total, b ≠ B → ∀ e ∈ evsB, e ∉ successEvents (behavior2 b)) :
    (B + 1) ∉ (rerun behavior2 total
        (finalCheckpointRead (runFresh behavior1 total))).failed_batches ∧
    ∀ e ∈ evsB,
      (rerun behavior2 total
        (finalCheckpointRead (runFresh behavior1 total))).events.count e =
      evsB.count e := by
  have hnoe1 : ∀ e ∈ evsB, ∀ f, f < total → e ∉ successEvents (behavior1 f) := by
    intro e he f hf hmem
    by_cases hfB : f = B
    · subst hfB
      rcases hfail1 with h | h <;> rw [h] at hmem <;> simp [successEvents] at hmem
    · exact hdisj1 f hf hfB e he hmem
  rcases hlast : (runFresh behavior1 total).saves.getLast? with _ | c
  · -- run 1 persisted nothing: run 2 is a fresh run and still covers B
    have hr : finalCheckpointRead (runFresh behavior1 total) = .noFile := by
      unfold finalCheckpointRead
      rw [hlast]
    rw [hr]
    exact rerun_core behavior2 total B 0 evsB [] [] hB (Nat.zero_le B) hsucc2
      List.nodup_nil hdisj2 (by simp)
  · -- run 1 left checkpoint c: a snapshot of the state after some prefix
    have hr : finalCheckpointRead (runFresh behavior1 total) = .ok c := by
      unfold finalCheckpointRead
      rw [hlast]
    rw [hr]
    obtain ⟨ds, hds, hsnap⟩ :=
      runBatches_saves_snapshot behavior1 (batchRange 0 total) initialLoopState
    have hsaves : (runFresh behavior1 total).saves = ds := by
      unfold runFresh
      rw [hds]
      simp [initialLoopState]
    have hcmem : c ∈ ds := getLast?_mem_self _ _ (hsaves ▸ hlast)
    obtain ⟨bs1, b, bs2, heq, hlb, hev, hfl⟩ := hsnap c hcmem
    have hpre : (bs1 ++ [b]) ++ bs2 = batchRange 0 total := by
      rw [heq]
      simp
    have hpnodup : (bs1 ++ [b]).Nodup :=
      List.Nodup.sublist (hpre ▸ List.sublist_append_left (bs1 ++ [b]) bs2)
        (nodup_batchRange 0 total)
    have hpmem : ∀ f ∈ bs1 ++ [b], f < total := by
      intro f hf
      have hmem : f ∈ batchRange 0 total := by
        rw [← hpre]
        exact List.mem_append.mpr (Or.inl hf)
      exact (mem_batchRange.mp hmem).2
    have hcnodup : c.failed_batches.Nodup := by
      rw [hfl]
      exact runBatches_failed_nodup _ _ _ (by simp [initialLoopState])
    have hcev : ∀ e ∈ evsB, e ∉ c.events := by
      intro e he hmem
      rw [hev, runBatches_events] at hmem
      simp only [initialLoopState, List.nil_append] at hmem
      obtain ⟨f, hf, hfe⟩ := contributions_mem _ _ _ hmem
      exact hnoe1 e he f (hpmem f hf) hfe
    have hBfail : B ∈ bs1 ++ [b] → (B + 1) ∈ c.failed_batches := by
      intro hBp
      rw [hfl]
      exact runBatches_failed_mem_of_failure behavior1 _ _ B hpnodup hBp hfail1
    have hnotB : B ∉ bs1 ++ [b] → (bs1 ++ [b]).length ≤ B := by
      intro hBp
      obtain ⟨hpeq, hplen⟩ := prefix_of_batchRange total _ _ hpre
      by_contra hlen
      push_neg at hlen
      exact hBp (hpeq ▸ mem_batchRange.mpr ⟨Nat.zero_le B, hlen⟩)
    have hres : ∃ start, analyzerResume (.ok c) = (c.events, c.failed_batches, start) ∧
        start ≤ B := by
      by_cases hne : c.failed_batches = []
      · -- no recorded failure in c: c precedes B, so last_batch is at most B
        refine ⟨c.last_batch, by simp [analyzerResume, hne], ?_⟩
        have hBp : B ∉ bs1 ++ [b] := by
          intro hBp
          have := hBfail hBp
          rw [hne] at this
          simp at this
        have hlenB := hnotB hBp
        obtain ⟨hpeq, hplen⟩ := prefix_of_batchRange total _ _ hpre
        have hbmem : b ∈ bs1 ++ [b] := List.mem_append.mpr (Or.inr (by simp))
        have hbB : b < (bs1 ++ [b]).length := (mem_batchRange.mp (hpeq ▸ hbmem)).2
        omega
      · refine ⟨minList c.failed_batches - 1, by simp [analyzerResume, hne], ?_⟩
        by_cases hBp : B ∈ bs1 ++ [b]
        · have := minList_le_of_mem _ _ (hBfail hBp)
          omega
        · -- every recorded failure precedes B, so the minimum does too
          have hlenB := hnotB hBp
          obtain ⟨hpeq, hplen⟩ := prefix_of_batchRange total _ _ hpre
          obtain ⟨x, hx⟩ := List.exists_mem_of_ne_nil _ hne
          have hx1 := hx
          rw [hfl] at hx1
          rcases runBatches_failed_src _ _ _ _ hx1 with h | ⟨f, hf, rfl⟩
          · simp [initialLoopState] at h
          · have hfB : f < (bs1 ++ [b]).length := (mem_batchRange.mp (hpeq ▸ hf)).2
            have := minList_le_of_mem _ _ hx
            omega
    obtain ⟨start, hload, hstartB⟩ := hres
    have hrer : rerun behavior2 total (.ok c) =
        runBatches behavior2 (batchRange start total) ⟨c.events, c.failed_batches, []⟩ := by
      unfold rerun
      rw [hload]
    rw [hrer]
    exact rerun_core behavior2 total B start evsB c.events c.failed_batches hB hstartB
      hsucc2 hcnodup hdisj2 hcev

/-- C3 witness with the parse-failure mode: five batches, batch 0 fails to
parse on run 1 (its failure is persisted by the periodic save at batch 5),
then succeeds on run 2 with event 9, which afterwards appears exactly once
while the failed set ends empty. -/
theorem c3_failure_self_healing_witness :
    ((fun b => if b = 0 then BatchOutcome.parseFailure else .success [5]) 0 =
        BatchOutcome.callFailure ∨
      (fun b => if b = 0 then BatchOutcome.parseFailure else .success [5]) 0 =
        BatchOutcome.parseFailure) ∧
    ((0 + 1) ∉ (rerun (fun b => if b = 0 then .success [9] else .success [5]) 5
        (finalCheckpointRead (runFresh
          (fun b => if b = 0 then BatchOutcome.parseFailure else .success [5]) 5))).failed_batches ∧
      ∀ e ∈ ([9] : List BatchEvent),
        (rerun (fun b => if b = 0 then .success [9] else .success [5]) 5
          (finalCheckpointRead (runFresh
            (fun b => if b = 0 then BatchOutcome.parseFailure else .success [5]) 5))).events.count e =
          ([9] : List BatchEvent).count e) :=
  ⟨by decide,
   c3_failure_self_healing
     (fun b => if b = 0 then BatchOutcome.parseFailure else .success [5])
     (fun b => if b = 0 then .success [9] else .success [5]) 5 0 [9]
     (by decide) (by decide) (by decide) (by decide) (by decide)⟩
